import Mathlib

/-!
Shallow embedding of the RISC-V Graphical Datapath Simulator core
(`src/simulator/components.ts`, normative variant, and `Simulator` from
`src/simulator/simulator.ts`), together with theorems settling the spec
claims.  Bit vectors are embedded as `Nat` with explicit widths
(truncation is `% 2^w`), signed readings as `Int`.  The helper modules
`bits.ts` and `memory.ts` are not among the provided sources; the few
operations needed from them are modelled from the spec (marked below).
-/

namespace RiscvSim

/-- MemSize enum from components.ts: Byte, HalfWord, Word. -/
inductive MemSize
  | Byte
  | HalfWord
  | Word
deriving DecidableEq, Repr

/-- WriteDataSrc enum (normative variant): ALUOut, MemRead, PC4, Imm. -/
inductive WriteDataSrc
  | ALUOut
  | MemRead
  | PC4
  | Imm
deriving DecidableEq, Repr

/-- ALUSrc1 enum (normative variant): Reg1, PC. -/
inductive ALUSrc1
  | Reg1
  | PC
deriving DecidableEq, Repr

/-- ALUSrc2 enum: Reg2, Imm. -/
inductive ALUSrc2
  | Reg2
  | Imm
deriving DecidableEq, Repr

/-- PCSrc enum (normative variant): PC4, JumpControl. -/
inductive PCSrc
  | PC4
  | JumpControl
deriving DecidableEq, Repr

/-- JumpControlSrc enum: PCImm, RS1Imm. -/
inductive JumpControlSrc
  | PCImm
  | RS1Imm
deriving DecidableEq, Repr

/-- MemAddrSrc enum (normative variant): PC, ALUOut. -/
inductive MemAddrSrc
  | PC
  | ALUOut
deriving DecidableEq, Repr

/-- State enum of the ControlFSM, represented by its numeric value as in the
source (`FETCH = 0`, …, `WRITEBACK = 4`); the falling edge computes
`(state + 1) % 5` on this number. -/
def FETCH : Nat := 0

/-- DECODE state of the ControlFSM. -/
def DECODE : Nat := 1

/-- EXECUTE state of the ControlFSM. -/
def EXECUTE : Nat := 2

/-- MEMORY state of the ControlFSM. -/
def MEMORY : Nat := 3

/-- WRITEBACK state of the ControlFSM. -/
def WRITEBACK : Nat := 4

/-- Modelled from the spec (§3 Bit-vector; bits.ts is not among the provided
sources): `slice(lo, hi)` of an LSB-first bit vector held as a `Nat`. -/
def bitsSlice (lo hi n : Nat) : Nat := (n / 2 ^ lo) % 2 ^ (hi - lo)

/-- Modelled from the spec (§3 Bit-vector): `Bits.extended(imm, 32, true)`,
sign-extension of a `w`-bit value to 32 bits treating its top bit as the
sign. -/
def bitsExtendedSigned (w v : Nat) : Nat :=
  if Nat.testBit v (w - 1) then v + (2 ^ 32 - 2 ^ w) else v

/-- Modelled from the spec (§3 Bit-vector, §4.4/§9 normative wrap): `Bits(a, w,
signed)` read back as an unsigned number, i.e. the `w`-bit two's-complement
pattern of the integer `a`; construction truncates modulo `2^w`. -/
def intToBits (w : Nat) (a : Int) : Nat := (a % ((2 : Int) ^ w)).toNat

/-- Modelled from the spec (§3 Bit-vector): `Bits.toInt(n, true)`, reading a
`w`-bit pattern as a two's-complement signed integer. -/
def bitsToIntSigned (w n : Nat) : Int :=
  if n < 2 ^ (w - 1) then (n : Int) else (n : Int) - (2 : Int) ^ w

/-- Modelled from the spec (§3 Bit-vector): `Bits.toInt(n, signed)`. -/
def bitsToInt (w n : Nat) (signed : Bool) : Int :=
  if signed then bitsToIntSigned w n else (n : Int)

/-- Modelled from the spec (§4.3; memory.ts is not among the provided
sources): the sparse byte store, a map from byte address to byte value,
zero for any address never written. -/
abbrev Mem : Type := Nat → Nat

/-- Modelled from the spec (§4.3): `store(addr, size, value)` writes the low
`size` bytes of `value` in little-endian order. -/
def memStore : Mem → Nat → Nat → Nat → Mem
  | m, _, 0, _ => m
  | m, addr, k + 1, v =>
    memStore (fun x => if x = addr then v % 256 else m x) (addr + 1) k (v / 256)

/-- Modelled from the spec (§4.3): `load(addr, size)` reads `size` bytes in
little-endian order and returns an unsigned integer in `[0, 2^(8*size))`. -/
def memLoad : Mem → Nat → Nat → Nat
  | _, _, 0 => 0
  | m, addr, k + 1 => m addr + 256 * memLoad m (addr + 1) k

/-- Modelled from the spec (§6 setCode; memory.ts is not among the provided
sources): `storeArray(start, size, words)` stores the words consecutively,
`size` bytes apart, starting at `start`. -/
def memStoreArray : Mem → Nat → Nat → List Nat → Mem
  | m, _, _, [] => m
  | m, addr, size, w :: ws => memStoreArray (memStore m addr size w) (addr + size) size ws

/-- Wires class (normative variant): the shared signal bus.  Bit-vector
signals are `Nat`, single bits are `Bool`. -/
structure Wires where
  loadInstr : Bool
  opcode : Nat
  funct3 : Nat
  funct7 : Nat
  immediate : Nat
  memWrite : Bool
  memSize : MemSize
  memUnsigned : Bool
  memAddress : Nat
  memReadData : Nat
  pcVal : Nat
  pcVal4 : Nat
  pcIn : Nat
  loadPC : Bool
  branchZero : Bool
  branchNotZero : Bool
  jumpControlSrc : JumpControlSrc
  jumpAddr : Nat
  aluOp : Nat
  aluAlt : Bool
  aluCalc : Bool
  aluIn1 : Nat
  aluIn2 : Nat
  aluOut : Nat
  aluZero : Bool
  readReg1 : Nat
  readReg2 : Nat
  writeReg : Nat
  readData1 : Nat
  readData2 : Nat
  writeData : Nat
  regWrite : Bool
  writeDataMuxSrc : WriteDataSrc
  aluSrc1 : ALUSrc1
  aluSrc2 : ALUSrc2
  pcSrc : PCSrc
  memAddrMuxSrc : MemAddrSrc
deriving DecidableEq, Repr

/-- Whole-simulator state: the signal bus plus every component's latched
internal state (`ControlFSM.state`, `InstructionMemory.instruction`,
`RAM.data`/`RAM.readOutput`, `PC.val`, `ALU.output`,
`RegisterFile.registers`/`out1`/`out2`). -/
structure SimState where
  wires : Wires
  fsmState : Nat
  instruction : Nat
  mem : Mem
  ramReadOutput : Nat
  pcReg : Nat
  aluOutput : Nat
  regs : Nat → Nat
  regOut1 : Nat
  regOut2 : Nat

/-- Errors a rising edge can raise: the `EndOfProgram` signal from
InstructionMemory, or the generic `Error` thrown by `TruthTable.match`
when no row matches. -/
inductive SimErr
  | endOfProgram
  | noMatch
deriving DecidableEq, Repr

/-- ControlFSM.alu_table: keyed on opcode, rows in insertion order, `X` as
don't-care (realized as a mask test).  Returns
`(fun funct3 funct7 => (aluAlt, aluOp), aluSrc1, aluSrc2, aluCalc)`. -/
def aluTable (opcode : Nat) : (Nat → Nat → Bool × Nat) × ALUSrc1 × ALUSrc2 × Bool :=
  if opcode = 0b0110011 then
    ((fun f3 f7 => (Nat.testBit f7 5, f3)), ALUSrc1.Reg1, ALUSrc2.Reg2, true)
  else if opcode = 0b0010011 then
    ((fun f3 _ => (false, f3)), ALUSrc1.Reg1, ALUSrc2.Imm, true)
  else if opcode = 0b0010111 then
    ((fun _ _ => (false, 0)), ALUSrc1.PC, ALUSrc2.Imm, true)
  else if opcode &&& 0b1011111 = 0b0000011 then
    ((fun _ _ => (false, 0)), ALUSrc1.Reg1, ALUSrc2.Imm, true)
  else if opcode = 0b1100011 then
    ((fun f3 _ => (true, bitsSlice 1 3 f3)), ALUSrc1.Reg1, ALUSrc2.Reg2, true)
  else if opcode = 0b1100111 then
    ((fun _ _ => (false, 0)), ALUSrc1.Reg1, ALUSrc2.Imm, true)
  else if opcode = 0b1101111 then
    ((fun _ _ => (false, 0)), ALUSrc1.PC, ALUSrc2.Imm, true)
  else
    ((fun _ _ => (false, 0)), ALUSrc1.Reg1, ALUSrc2.Reg2, false)

/-- ControlFSM.memory_table: keyed on (opcode, funct3), returning
`(memWrite, memAddrMuxSrc, memSize, memUnsigned)`. -/
def memoryTable (opcode funct3 : Nat) : Bool × MemAddrSrc × MemSize × Bool :=
  if opcode = 0b0000011 ∧ funct3 = 0b000 then (false, MemAddrSrc.ALUOut, MemSize.Byte, false)
  else if opcode = 0b0000011 ∧ funct3 = 0b001 then (false, MemAddrSrc.ALUOut, MemSize.HalfWord, false)
  else if opcode = 0b0000011 ∧ funct3 &&& 0b011 = 0b010 then (false, MemAddrSrc.ALUOut, MemSize.Word, false)
  else if opcode = 0b0000011 ∧ funct3 = 0b100 then (false, MemAddrSrc.ALUOut, MemSize.Byte, true)
  else if opcode = 0b0000011 ∧ funct3 = 0b101 then (false, MemAddrSrc.ALUOut, MemSize.HalfWord, true)
  else if opcode = 0b0100011 ∧ funct3 = 0b000 then (true, MemAddrSrc.ALUOut, MemSize.Byte, false)
  else if opcode = 0b0100011 ∧ funct3 = 0b001 then (true, MemAddrSrc.ALUOut, MemSize.HalfWord, false)
  else if opcode = 0b0100011 ∧ funct3 = 0b010 then (true, MemAddrSrc.ALUOut, MemSize.Word, false)
  else (false, MemAddrSrc.PC, MemSize.Word, false)

/-- ControlFSM.register_table: keyed on opcode, returning
`(regWrite, writeDataMuxSrc)`. -/
def registerTable (opcode : Nat) : Bool × WriteDataSrc :=
  if opcode &&& 0b1011111 = 0b0010011 then (true, WriteDataSrc.ALUOut)
  else if opcode = 0b0010111 then (true, WriteDataSrc.ALUOut)
  else if opcode = 0b0110111 then (true, WriteDataSrc.Imm)
  else if opcode = 0b0000011 then (true, WriteDataSrc.MemRead)
  else if opcode &&& 0b1110111 = 0b1100111 then (true, WriteDataSrc.PC4)
  else (false, WriteDataSrc.ALUOut)

/-- ControlFSM.jump_table: keyed on (opcode, funct3), returning
`(branchZero, branchNotZero, jumpControlSrc)`. -/
def jumpTable (opcode funct3 : Nat) : Bool × Bool × JumpControlSrc :=
  if opcode = 0b1100111 then (true, true, JumpControlSrc.RS1Imm)
  else if opcode = 0b1101111 then (true, true, JumpControlSrc.PCImm)
  else if opcode = 0b1100011 ∧ funct3 = 0b000 then (true, false, JumpControlSrc.PCImm)
  else if opcode = 0b1100011 ∧ funct3 = 0b001 then (false, true, JumpControlSrc.PCImm)
  else if opcode = 0b1100011 ∧ funct3 = 0b100 then (false, true, JumpControlSrc.PCImm)
  else if opcode = 0b1100011 ∧ funct3 = 0b101 then (true, false, JumpControlSrc.PCImm)
  else if opcode = 0b1100011 ∧ funct3 = 0b110 then (false, true, JumpControlSrc.PCImm)
  else if opcode = 0b1100011 ∧ funct3 = 0b111 then (true, false, JumpControlSrc.PCImm)
  else (false, false, JumpControlSrc.PCImm)

/-- ControlFSM.reset_outputs (normative variant): restores every control
signal to its default at the start of each rising edge. -/
def controlResetOutputs (w : Wires) : Wires :=
  { w with
    loadInstr := false, memWrite := false, memSize := MemSize.Word, memUnsigned := false,
    loadPC := false, branchZero := false, branchNotZero := false,
    jumpControlSrc := JumpControlSrc.PCImm, aluOp := 0, aluAlt := false, aluCalc := false,
    regWrite := false, writeDataMuxSrc := WriteDataSrc.ALUOut, aluSrc1 := ALUSrc1.Reg1,
    aluSrc2 := ALUSrc2.Reg2, memAddrMuxSrc := MemAddrSrc.PC }

/-- ControlFSM.rising_edge wire effect, dispatching on the FSM state after
`reset_outputs`. -/
def controlWires (state : Nat) (w0 : Wires) : Wires :=
  let w := controlResetOutputs w0
  if state = FETCH then
    { w with memSize := MemSize.Word, memAddrMuxSrc := MemAddrSrc.PC }
  else if state = DECODE then
    { w with loadInstr := true }
  else if state = EXECUTE then
    let row := aluTable w.opcode
    let ao := row.1 w.funct3 w.funct7
    { w with
      aluAlt := ao.1, aluOp := ao.2, aluSrc1 := row.2.1,
      aluSrc2 := row.2.2.1, aluCalc := row.2.2.2 }
  else if state = MEMORY then
    let row := memoryTable w.opcode w.funct3
    { w with
      memWrite := row.1, memAddrMuxSrc := row.2.1,
      memSize := row.2.2.1, memUnsigned := row.2.2.2 }
  else if state = WRITEBACK then
    let rrow := registerTable w.opcode
    let jrow := jumpTable w.opcode w.funct3
    { w with
      regWrite := rrow.1, writeDataMuxSrc := rrow.2,
      branchZero := jrow.1, branchNotZero := jrow.2.1,
      jumpControlSrc := jrow.2.2, loadPC := true }
  else w

/-- ControlFSM.rising_edge. -/
def controlFSM_rising (s : SimState) : SimState :=
  { s with wires := controlWires s.fsmState s.wires }

/-- ControlFSM.falling_edge (normative variant): `state = (state + 1) % 5`. -/
def controlFSM_falling (s : SimState) : SimState :=
  { s with fsmState := (s.fsmState + 1) % 5 }

/-- JumpControl.rising_edge (normative variant): combinational branch
decision and jump address.  `Bits(jumpAddr, 33).slice(0, 32)` is the 33-bit
truncation followed by dropping the 33rd bit. -/
def jumpControl_rising (s : SimState) : SimState :=
  let shouldBranch : Bool :=
    (s.wires.branchZero && s.wires.aluZero) ||
      (s.wires.branchNotZero && !s.wires.aluZero)
  let baseBits : Nat :=
    if s.wires.jumpControlSrc = JumpControlSrc.PCImm then s.wires.pcVal
    else s.wires.readData1
  let jumpAddr : Int := (baseBits : Int) + bitsToIntSigned 32 s.wires.immediate
  { s with wires := { s.wires with
      pcSrc := if shouldBranch then PCSrc.JumpControl else PCSrc.PC4,
      jumpAddr := bitsSlice 0 32 (intToBits 33 jumpAddr) } }

/-- WriteDataMux.rising_edge (normative variant). -/
def writeDataMux_rising (s : SimState) : SimState :=
  { s with wires := { s.wires with writeData :=
      match s.wires.writeDataMuxSrc with
      | WriteDataSrc.ALUOut => s.wires.aluOut
      | WriteDataSrc.MemRead => s.wires.memReadData
      | WriteDataSrc.PC4 => s.wires.pcVal4
      | WriteDataSrc.Imm => s.wires.immediate } }

/-- ALUSrcMux1.rising_edge (normative variant). -/
def aluSrcMux1_rising (s : SimState) : SimState :=
  { s with wires := { s.wires with aluIn1 :=
      match s.wires.aluSrc1 with
      | ALUSrc1.Reg1 => s.wires.readData1
      | ALUSrc1.PC => s.wires.pcVal } }

/-- ALUSrcMux2.rising_edge. -/
def aluSrcMux2_rising (s : SimState) : SimState :=
  { s with wires := { s.wires with aluIn2 :=
      match s.wires.aluSrc2 with
      | ALUSrc2.Reg2 => s.wires.readData2
      | ALUSrc2.Imm => s.wires.immediate } }

/-- PCSrcMux.rising_edge (normative variant). -/
def pcSrcMux_rising (s : SimState) : SimState :=
  { s with wires := { s.wires with pcIn :=
      match s.wires.pcSrc with
      | PCSrc.PC4 => s.wires.pcVal4
      | PCSrc.JumpControl => s.wires.jumpAddr } }

/-- MemAddrMux.rising_edge (normative variant). -/
def memAddrMux_rising (s : SimState) : SimState :=
  { s with wires := { s.wires with memAddress :=
      match s.wires.memAddrMuxSrc with
      | MemAddrSrc.ALUOut => s.wires.aluOut
      | MemAddrSrc.PC => s.wires.pcVal } }

/-- InstructionMemory.immediate_table (normative variant): keyed on opcode,
first matching row in insertion order; each row builds the raw immediate
from the instruction word, returned as (bit width, value); `none` when no
row matches (in the source, `TruthTable.match` then throws). -/
def immediateTable (opcode : Nat) : Option (Nat → Nat × Nat) :=
  if opcode = 0b0110011 then
    some (fun _ => (1, 0))
  else if opcode &&& 0b1101111 = 0b0000011 then
    some (fun i => (12, bitsSlice 20 32 i))
  else if opcode = 0b1100111 then
    some (fun i => (12, bitsSlice 20 32 i))
  else if opcode = 0b0100011 then
    some (fun i => (12, bitsSlice 25 32 i * 2 ^ 5 + bitsSlice 7 12 i))
  else if opcode = 0b1100011 then
    some (fun i => (13,
      (Nat.testBit i 31).toNat * 2 ^ 12 + (Nat.testBit i 7).toNat * 2 ^ 11 +
        bitsSlice 25 31 i * 2 ^ 5 + bitsSlice 8 12 i * 2 ^ 1))
  else if opcode &&& 0b1011111 = 0b0010111 then
    some (fun i => (32, bitsSlice 12 32 i * 2 ^ 12))
  else if opcode = 0b1101111 then
    some (fun i => (21,
      (Nat.testBit i 31).toNat * 2 ^ 20 + bitsSlice 12 20 i * 2 ^ 12 +
        (Nat.testBit i 20).toNat * 2 ^ 11 + bitsSlice 21 31 i * 2 ^ 1))
  else none

/-- Instruction word InstructionMemory works on during the rising edge:
`memReadData` freshly latched when `loadInstr` is asserted, the previous
latch otherwise. -/
def imemWord (s : SimState) : Nat :=
  if s.wires.loadInstr then s.wires.memReadData else s.instruction

/-- State after the latch step of InstructionMemory.rising_edge. -/
def imemLatch (s : SimState) : SimState :=
  { s with instruction := imemWord s }

/-- State after InstructionMemory.rising_edge has published the fixed
instruction fields (opcode, rd, funct3, rs1, rs2, funct7). -/
def imemDecode (s : SimState) : SimState :=
  { imemLatch s with wires := { s.wires with
      opcode := bitsSlice 0 7 (imemWord s), writeReg := bitsSlice 7 12 (imemWord s),
      funct3 := bitsSlice 12 15 (imemWord s), readReg1 := bitsSlice 15 20 (imemWord s),
      readReg2 := bitsSlice 20 25 (imemWord s), funct7 := bitsSlice 25 32 (imemWord s) } }

/-- State after InstructionMemory.rising_edge has also published the
sign-extended immediate produced by the matched immediate-table row. -/
def imemSetImm (s : SimState) (gen : Nat → Nat × Nat) : SimState :=
  { imemDecode s with wires := { (imemDecode s).wires with
      immediate := bitsExtendedSigned (gen (imemWord s)).1 (gen (imemWord s)).2 } }

/-- InstructionMemory.rising_edge (normative variant): latch `memReadData`
when `loadInstr` is asserted, raise `EndOfProgram` when the latched word is
all zeros, otherwise publish the decoded fields and the sign-extended
immediate; an opcode with no immediate-table row raises the generic
truth-table error.  The error value carries the partially updated state,
matching the mutations performed before the throw. -/
def instructionMemory_rising (s : SimState) : Except (SimErr × SimState) SimState :=
  if imemWord s = 0 then Except.error (SimErr.endOfProgram, imemLatch s)
  else
    match immediateTable (bitsSlice 0 7 (imemWord s)) with
    | none => Except.error (SimErr.noMatch, imemDecode s)
    | some gen => Except.ok (imemSetImm s gen)

/-- RAM size table: `00 -> 1`, `01 -> 2`, `10 -> 4` bytes. -/
def ramSizeTable : MemSize → Nat
  | MemSize.Byte => 1
  | MemSize.HalfWord => 2
  | MemSize.Word => 4

/-- RAM.rising_edge (normative variant): optionally store `readData2` at
`memAddress`, then read back `size` bytes into `readOutput` as an unsigned
32-bit value.  Note the source never consults `memUnsigned` here. -/
def ram_rising (s : SimState) : SimState :=
  let addr := s.wires.memAddress
  let size := ramSizeTable s.wires.memSize
  let m := if s.wires.memWrite then memStore s.mem addr size s.wires.readData2 else s.mem
  { s with mem := m, ramReadOutput := memLoad m addr size }

/-- RAM.falling_edge: publish `readOutput` as `memReadData`. -/
def ram_falling (s : SimState) : SimState :=
  { s with wires := { s.wires with memReadData := s.ramReadOutput } }

/-- PC.rising_edge: latch `pcIn` when `loadPC` is asserted. -/
def pc_rising (s : SimState) : SimState :=
  { s with pcReg := if s.wires.loadPC then s.wires.pcIn else s.pcReg }

/-- PC.falling_edge (normative variant): publish `pcVal` and the wrapped
next-sequential value `pcVal4 = (val + 4) &&& 0xFFFFFFFF`. -/
def pc_falling (s : SimState) : SimState :=
  { s with wires := { s.wires with
      pcVal := s.pcReg, pcVal4 := (s.pcReg + 4) &&& 0xFFFFFFFF } }

/-- ALU.table signedness column for the row selected by `(aluOp, aluAlt)`,
rows in insertion order. -/
def aluSigned (op : Nat) (alt : Bool) : Bool :=
  if op = 0 ∧ alt = false then true
  else if op = 0 ∧ alt = true then true
  else if op = 1 then true
  else if op = 2 then true
  else if op = 3 then false
  else if op = 4 then true
  else if op = 5 ∧ alt = false then false
  else if op = 5 ∧ alt = true then true
  else if op = 6 then true
  else true

/-- Shift amount `b &&& 0x1F`: on arbitrary-precision two's-complement this
is `b mod 32`, which is nonnegative. -/
def shamt (b : Int) : Nat := (b % 32).toNat

/-- Two's-complement XOR computed at width 33.  Agrees with the
arbitrary-precision two's-complement XOR for operands in `[-2^32, 2^32)`,
which covers the 32-bit sign-decoded ALU inputs. -/
def intXor33 (a b : Int) : Int :=
  bitsToIntSigned 33 (intToBits 33 a ^^^ intToBits 33 b)

/-- Two's-complement OR computed at width 33 (see `intXor33`). -/
def intOr33 (a b : Int) : Int :=
  bitsToIntSigned 33 (intToBits 33 a ||| intToBits 33 b)

/-- Two's-complement AND computed at width 33 (see `intXor33`). -/
def intAnd33 (a b : Int) : Int :=
  bitsToIntSigned 33 (intToBits 33 a &&& intToBits 33 b)

/-- ALU.table operation column for the row selected by `(aluOp, aluAlt)`,
rows in insertion order.  `>>` on arbitrary-precision integers is a floor
division, hence `Int.fdiv`. -/
def aluOpFun (op : Nat) (alt : Bool) (a b : Int) : Int :=
  if op = 0 ∧ alt = false then a + b
  else if op = 0 ∧ alt = true then a - b
  else if op = 1 then a * 2 ^ shamt b
  else if op = 2 then if a < b then 1 else 0
  else if op = 3 then if a < b then 1 else 0
  else if op = 4 then intXor33 a b
  else if op = 5 ∧ alt = false then Int.fdiv a (2 ^ shamt b)
  else if op = 5 ∧ alt = true then Int.fdiv a (2 ^ shamt b)
  else if op = 6 then intOr33 a b
  else intAnd33 a b

/-- ALU.rising_edge (normative variant): when `aluCalc` is asserted, decode
the operands per the row's signedness, apply the row's operation, and keep
the low 32 bits of the 33-bit truncation
(`Bits(op(in1, in2), 33, signed).slice(0, 32)`). -/
def alu_rising (s : SimState) : SimState :=
  { s with aluOutput :=
      if s.wires.aluCalc then
        bitsSlice 0 32 (intToBits 33
          (aluOpFun s.wires.aluOp s.wires.aluAlt
            (bitsToInt 32 s.wires.aluIn1 (aluSigned s.wires.aluOp s.wires.aluAlt))
            (bitsToInt 32 s.wires.aluIn2 (aluSigned s.wires.aluOp s.wires.aluAlt))))
      else s.aluOutput }

/-- ALU.falling_edge: publish `aluOut` and `aluZero` (every bit zero, i.e.
the value is zero). -/
def alu_falling (s : SimState) : SimState :=
  { s with wires := { s.wires with
      aluOut := s.aluOutput, aluZero := decide (s.aluOutput = 0) } }

/-- RegisterFile.rising_edge (normative variant): sample both read ports
from the current register contents, then, when `regWrite` is asserted and
`writeReg` is not slot 0, store `writeData` into `writeReg`. -/
def registerFile_rising (s : SimState) : SimState :=
  { s with
    regOut1 := s.regs s.wires.readReg1,
    regOut2 := s.regs s.wires.readReg2,
    regs :=
      if s.wires.regWrite ∧ s.wires.writeReg ≠ 0 then
        Function.update s.regs s.wires.writeReg s.wires.writeData
      else s.regs }

/-- RegisterFile.falling_edge: publish the sampled read ports. -/
def registerFile_falling (s : SimState) : SimState :=
  { s with wires := { s.wires with
      readData1 := s.regOut1, readData2 := s.regOut2 } }

/-- Rising-edge phase of the components that run before InstructionMemory,
in the fixed `componentList` order of the normative Simulator constructor:
ControlFSM, JumpControl, WriteDataMux, ALUSrcMux1, ALUSrcMux2, PCSrcMux,
MemAddrMux. -/
def risingPre (s : SimState) : SimState :=
  memAddrMux_rising (pcSrcMux_rising (aluSrcMux2_rising (aluSrcMux1_rising
    (writeDataMux_rising (jumpControl_rising (controlFSM_rising s))))))

/-- Rising-edge phase of the components that run after InstructionMemory:
RAM, PC, ALU, RegisterFile. -/
def risingPost (s : SimState) : SimState :=
  registerFile_rising (alu_rising (pc_rising (ram_rising s)))

/-- Falling-edge phase in `componentList` order (JumpControl, the muxes and
InstructionMemory have empty falling edges). -/
def fallingAll (s : SimState) : SimState :=
  registerFile_falling (alu_falling (pc_falling (ram_falling (controlFSM_falling s))))

/-- Simulator.tick (normative variant): run the rising edge over the
component list; an `EndOfProgram` raised inside it is caught and converted
to the return value `false`, skipping the remaining components and the
whole falling-edge phase; any other error propagates to the caller.  A
completed cycle returns `true`. -/
def tick (s : SimState) : Except SimErr (Bool × SimState) :=
  match instructionMemory_rising (risingPre s) with
  | Except.ok t => Except.ok (true, fallingAll (risingPost t))
  | Except.error (SimErr.endOfProgram, t) => Except.ok (false, t)
  | Except.error (SimErr.noMatch, _) => Except.error SimErr.noMatch

/-- Wires field initializers of the normative variant (enum fields default
to their first member). -/
def initWires : Wires :=
  { loadInstr := false, opcode := 0, funct3 := 0, funct7 := 0, immediate := 0,
    memWrite := false, memSize := MemSize.Byte, memUnsigned := false,
    memAddress := 0, memReadData := 0, pcVal := 0, pcVal4 := 4, pcIn := 0,
    loadPC := false, branchZero := false, branchNotZero := false,
    jumpControlSrc := JumpControlSrc.PCImm, jumpAddr := 0, aluOp := 0,
    aluAlt := false, aluCalc := false, aluIn1 := 0, aluIn2 := 0, aluOut := 0,
    aluZero := false, readReg1 := 0, readReg2 := 0, writeReg := 0,
    readData1 := 0, readData2 := 0, writeData := 0, regWrite := false,
    writeDataMuxSrc := WriteDataSrc.ALUOut, aluSrc1 := ALUSrc1.Reg1,
    aluSrc2 := ALUSrc2.Reg2, pcSrc := PCSrc.PC4, memAddrMuxSrc := MemAddrSrc.PC }

/-- Simulator.textStart (normative variant). -/
def textStart : Nat := 0x00010000

/-- Initial register file: all zero except x2 (sp) and x3 (gp), as set by
the Simulator constructor. -/
def initRegs : Nat → Nat :=
  Function.update (Function.update (fun _ => 0) 2 0xBFFFFFF0) 3 0x10008000

/-- Simulator constructor (normative variant) with a program: FSM in FETCH,
instruction latch holding the nop `0x00000013`, `pc.val` and `wires.pcVal`
preset to `textStart`, sp and gp preset, and the code stored word-wise at
`textStart`. -/
def initSim (code : List Nat) : SimState :=
  { wires := { initWires with pcVal := textStart },
    fsmState := FETCH, instruction := 0x00000013,
    mem := memStoreArray (fun _ => 0) textStart 4 code,
    ramReadOutput := 0, pcReg := textStart, aluOutput := 0,
    regs := initRegs, regOut1 := 0, regOut2 := 0 }

/-- Instruction word that is latched in InstructionMemory during a tick from
state `s`: `memReadData` when the ControlFSM will assert `loadInstr` (it
does so exactly in DECODE), the previous latch otherwise. -/
def latchedAfterLoad (s : SimState) : Nat :=
  if s.fsmState = DECODE then s.wires.memReadData else s.instruction

/-- Opcodes for which the immediate table has a row, i.e. the supported
instruction formats. -/
def immFormatSupported (opcode : Nat) : Bool :=
  (immediateTable opcode).isSome

/-- Masking with the 32-bit all-ones word is reduction modulo `2^32`. -/
lemma land_mask32 (n : Nat) : n &&& 0xFFFFFFFF = n % 2 ^ 32 := by
  have h32 : (0xFFFFFFFF : Nat) = 2 ^ 32 - 1 := by norm_num
  rw [h32]
  apply Nat.eq_of_testBit_eq
  intro i
  rw [Nat.testBit_land, Nat.testBit_mod_two_pow, Nat.testBit_two_pow_sub_one]
  by_cases h : i < 32
  · simp [h]
  · simp [h]

/-- The ControlFSM asserts `loadInstr` exactly in the DECODE state. -/
lemma controlWires_loadInstr (n : Nat) (w : Wires) :
    (controlWires n w).loadInstr = decide (n = DECODE) := by
  unfold controlWires
  split_ifs with h0 h1 h2 h3 h4
  · rw [h0]
    rfl
  · rw [h1]
    rfl
  · rw [h2]
    rfl
  · rw [h3]
    rfl
  · rw [h4]
    rfl
  · simp [controlResetOutputs, h1]

/-- The ControlFSM never writes the `memReadData` wire. -/
lemma controlWires_memReadData (n : Nat) (w : Wires) :
    (controlWires n w).memReadData = w.memReadData := by
  unfold controlWires
  split_ifs <;> rfl

/-- Wires written by the components running before InstructionMemory, as
seen by InstructionMemory: the latch-enable and the RAM output. -/
lemma risingPre_instr_inputs (s : SimState) :
    (risingPre s).wires.loadInstr = decide (s.fsmState = DECODE) ∧
    (risingPre s).wires.memReadData = s.wires.memReadData ∧
    (risingPre s).instruction = s.instruction := by
  simp only [risingPre, memAddrMux_rising, pcSrcMux_rising, aluSrcMux2_rising,
    aluSrcMux1_rising, writeDataMux_rising, jumpControl_rising, controlFSM_rising]
  exact ⟨controlWires_loadInstr s.fsmState s.wires,
    controlWires_memReadData s.fsmState s.wires, trivial⟩

/-- Components running before InstructionMemory only write wires; the
latched component state is untouched. -/
lemma risingPre_core (s : SimState) :
    (risingPre s).fsmState = s.fsmState ∧ (risingPre s).regs = s.regs ∧
    (risingPre s).mem = s.mem ∧ (risingPre s).pcReg = s.pcReg :=
  ⟨rfl, rfl, rfl, rfl⟩

/-- A successful InstructionMemory rising edge only writes wires and the
instruction latch. -/
lemma imem_ok_core (t u : SimState) (h : instructionMemory_rising t = Except.ok u) :
    u.fsmState = t.fsmState ∧ u.regs = t.regs ∧ u.mem = t.mem ∧ u.pcReg = t.pcReg := by
  unfold instructionMemory_rising at h
  by_cases hz : imemWord t = 0
  · rw [if_pos hz] at h
    cases h
  · rw [if_neg hz] at h
    rcases hm : immediateTable (bitsSlice 0 7 (imemWord t)) with _ | gen
    · rw [hm] at h
      cases h
    · rw [hm] at h
      cases h
      exact ⟨rfl, rfl, rfl, rfl⟩

/-- An `EndOfProgram` raised by InstructionMemory means the latched word is
zero, and the state thrown with it differs from the input state only in
the instruction latch. -/
lemma imem_eop_core (t u : SimState)
    (h : instructionMemory_rising t = Except.error (SimErr.endOfProgram, u)) :
    imemWord t = 0 ∧
    u.fsmState = t.fsmState ∧ u.regs = t.regs ∧ u.mem = t.mem ∧ u.pcReg = t.pcReg := by
  unfold instructionMemory_rising at h
  by_cases hz : imemWord t = 0
  · rw [if_pos hz] at h
    cases h
    exact ⟨hz, rfl, rfl, rfl, rfl⟩
  · rw [if_neg hz] at h
    rcases hm : immediateTable (bitsSlice 0 7 (imemWord t)) with _ | gen
    · rw [hm] at h
      cases h
    · rw [hm] at h
      cases h

/-- A zero latched word makes InstructionMemory raise `EndOfProgram`. -/
lemma imem_eop_of_zero (t : SimState) (hz : imemWord t = 0) :
    instructionMemory_rising t = Except.error (SimErr.endOfProgram, imemLatch t) := by
  unfold instructionMemory_rising
  rw [if_pos hz]

/-- A nonzero latched word with a supported opcode decodes successfully. -/
lemma imem_ok_of_supported (t : SimState) (hz : imemWord t ≠ 0)
    (hs : immFormatSupported (bitsSlice 0 7 (imemWord t)) = true) :
    ∃ u, instructionMemory_rising t = Except.ok u := by
  unfold instructionMemory_rising
  rw [if_neg hz]
  rcases hm : immediateTable (bitsSlice 0 7 (imemWord t)) with _ | gen
  · rw [immFormatSupported, hm] at hs
    cases hs
  · exact ⟨_, rfl⟩

/-- Shape of `tick` when the rising edge completes. -/
lemma tick_eq_of_ok (s u : SimState)
    (hE : instructionMemory_rising (risingPre s) = Except.ok u) :
    tick s = Except.ok (true, fallingAll (risingPost u)) := by
  unfold tick
  rw [hE]

/-- Shape of `tick` when `EndOfProgram` is raised: the rising edge stops at
InstructionMemory and the falling edge is skipped. -/
lemma tick_eq_of_eop (s u : SimState)
    (hE : instructionMemory_rising (risingPre s) = Except.error (SimErr.endOfProgram, u)) :
    tick s = Except.ok (false, u) := by
  unfold tick
  rw [hE]

/-- Shape of `tick` when the decoder finds no immediate-table row: the error
propagates to the caller. -/
lemma tick_eq_of_noMatch (s u : SimState)
    (hE : instructionMemory_rising (risingPre s) = Except.error (SimErr.noMatch, u)) :
    tick s = Except.error SimErr.noMatch := by
  unfold tick
  rw [hE]

/-- Register contents after the rising-edge phase past InstructionMemory. -/
lemma risingPost_regs (t : SimState) :
    (risingPost t).regs =
      if t.wires.regWrite = true ∧ t.wires.writeReg ≠ 0 then
        Function.update t.regs t.wires.writeReg t.wires.writeData
      else t.regs := rfl

/-- The falling-edge phase writes only wires and the FSM state. -/
lemma fallingAll_core (t : SimState) :
    (fallingAll t).regs = t.regs ∧ (fallingAll t).mem = t.mem ∧
    (fallingAll t).pcReg = t.pcReg ∧ (fallingAll t).fsmState = (t.fsmState + 1) % 5 :=
  ⟨rfl, rfl, rfl, rfl⟩

/-- The rising-edge phase never changes the FSM state. -/
lemma risingPost_fsmState (t : SimState) : (risingPost t).fsmState = t.fsmState := rfl

/-- C7: for every value of the PC register, the falling edge publishes
`pcVal4 = (pcVal + 4) mod 2^32` (wrapping at `2^32`, raising no error —
`pc_falling` is total) alongside `pcVal` itself. -/
theorem pc_falling_publishes_wrapped_pcVal4 (s : SimState) :
    (pc_falling s).wires.pcVal4 = (s.pcReg + 4) % 2 ^ 32 ∧
    (pc_falling s).wires.pcVal = s.pcReg :=
  ⟨land_mask32 (s.pcReg + 4), rfl⟩

/-- C8: every completed `tick()` (returning `true`) advances the ControlFSM
by exactly one state of the five-state cycle, computed as
`(state + 1) mod 5`, so WRITEBACK wraps to FETCH. -/
theorem tick_advances_fsm (s s' : SimState) (h : tick s = Except.ok (true, s')) :
    s'.fsmState = (s.fsmState + 1) % 5 := by
  rcases hE : instructionMemory_rising (risingPre s) with ⟨e, t⟩ | u
  · cases e
    · rw [tick_eq_of_eop s t hE] at h
      simp at h
    · rw [tick_eq_of_noMatch s t hE] at h
      cases h
  · rw [tick_eq_of_ok s u hE] at h
    simp only [Except.ok.injEq, Prod.mk.injEq] at h
    rw [← h.2, (fallingAll_core (risingPost u)).2.2.2, risingPost_fsmState,
      (imem_ok_core (risingPre s) u hE).1, (risingPre_core s).1]

/-- Program consisting of a single nop, used to exercise one completed
tick. -/
def c8Start : SimState := initSim [0x00000013]

/-- State after one tick of `c8Start`. -/
def c8Next : SimState :=
  match tick c8Start with
  | Except.ok (_, t) => t
  | Except.error _ => c8Start

/-- Witness for C8 at a concrete program: the first tick moves the FSM from
FETCH to DECODE. -/
theorem tick_advances_fsm_witness : c8Next.fsmState = (c8Start.fsmState + 1) % 5 :=
  tick_advances_fsm c8Start c8Next rfl

/-- C9: whenever `tick()` returns `false` (EndOfProgram), the register file,
the RAM contents, the PC register and the ControlFSM state are exactly what
they were before the call — the components holding them run after
InstructionMemory on the rising edge, and the falling edge is skipped. -/
theorem tick_eop_atomic (s s' : SimState) (h : tick s = Except.ok (false, s')) :
    s'.regs = s.regs ∧ s'.mem = s.mem ∧ s'.pcReg = s.pcReg ∧ s'.fsmState = s.fsmState := by
  rcases hE : instructionMemory_rising (risingPre s) with ⟨e, t⟩ | u
  · cases e
    · rw [tick_eq_of_eop s t hE] at h
      simp only [Except.ok.injEq, Prod.mk.injEq, true_and] at h
      subst h
      have hc := imem_eop_core (risingPre s) t hE
      exact ⟨hc.2.2.1, hc.2.2.2.1, hc.2.2.2.2, hc.2.1⟩
    · rw [tick_eq_of_noMatch s t hE] at h
      cases h
  · rw [tick_eq_of_ok s u hE] at h
    simp at h

/-- Empty program: the word fetched at `textStart` is zero, so the second
tick raises `EndOfProgram`. -/
def c9Mid : SimState :=
  match tick (initSim []) with
  | Except.ok (_, t) => t
  | Except.error _ => initSim []

/-- State returned by the tick of `c9Mid` that reports end of program. -/
def c9Halt : SimState :=
  match tick c9Mid with
  | Except.ok (_, t) => t
  | Except.error _ => c9Mid

/-- Witness for C9: the tick that returns `false` on the empty program
leaves registers, RAM, PC and FSM state untouched. -/
theorem tick_eop_atomic_witness :
    c9Halt.regs = c9Mid.regs ∧ c9Halt.mem = c9Mid.mem ∧
    c9Halt.pcReg = c9Mid.pcReg ∧ c9Halt.fsmState = c9Mid.fsmState :=
  tick_eop_atomic c9Mid c9Halt rfl

/-- C2: register 0 stays zero across every `tick()` of every program — the
register file discards writes aimed at slot 0 (whether or not `regWrite` is
asserted), its read ports return the stored zero, and no other component
writes the register file. -/
theorem register_zero_invariant :
    (∀ code, (initSim code).regs 0 = 0) ∧
    (∀ s b s', tick s = Except.ok (b, s') → s.regs 0 = 0 → s'.regs 0 = 0) ∧
    (∀ s, s.wires.readReg1 = 0 → s.regs 0 = 0 → (registerFile_rising s).regOut1 = 0) ∧
    (∀ s, s.wires.writeReg = 0 → (registerFile_rising s).regs = s.regs) := by
  refine ⟨fun code => rfl, ?_, ?_, ?_⟩
  · intro s b s' h h0
    rcases hE : instructionMemory_rising (risingPre s) with ⟨e, t⟩ | u
    · cases e
      · rw [tick_eq_of_eop s t hE] at h
        simp only [Except.ok.injEq, Prod.mk.injEq] at h
        rw [← h.2, (imem_eop_core (risingPre s) t hE).2.2.1]
        exact h0
      · rw [tick_eq_of_noMatch s t hE] at h
        cases h
    · rw [tick_eq_of_ok s u hE] at h
      simp only [Except.ok.injEq, Prod.mk.injEq] at h
      rw [← h.2, (fallingAll_core (risingPost u)).1, risingPost_regs]
      have hu : u.regs = s.regs := (imem_ok_core (risingPre s) u hE).2.1
      by_cases hw : u.wires.regWrite = true ∧ u.wires.writeReg ≠ 0
      · rw [if_pos hw, Function.update_noteq (Ne.symm hw.2), hu]
        exact h0
      · rw [if_neg hw, hu]
        exact h0
  · intro s h1 h0
    show s.regs s.wires.readReg1 = 0
    rw [h1]
    exact h0
  · intro s hw
    show (if s.wires.regWrite = true ∧ s.wires.writeReg ≠ 0 then _ else s.regs) = s.regs
    rw [if_neg]
    intro hc
    exact hc.2 hw

/-- One-nop program for the C2 witness. -/
def c2Start : SimState := initSim [0x00000013]

/-- State after one tick of `c2Start`. -/
def c2Next : SimState :=
  match tick c2Start with
  | Except.ok (_, t) => t
  | Except.error _ => c2Start

/-- Handcrafted state attempting a write to register 0. -/
def c2WriteZero : SimState :=
  { wires := { initWires with regWrite := true, writeReg := 0, writeData := 7 },
    fsmState := WRITEBACK, instruction := 0x00000013, mem := fun _ => 0,
    ramReadOutput := 0, pcReg := 0, aluOutput := 0, regs := fun _ => 0,
    regOut1 := 0, regOut2 := 0 }

/-- Witness for C2: one concrete tick preserves register 0, a slot-0 read
returns zero, and an attempted slot-0 write is discarded. -/
theorem register_zero_invariant_witness :
    (initSim []).regs 0 = 0 ∧
    c2Next.regs 0 = 0 ∧ (registerFile_rising c2WriteZero).regOut1 = 0 ∧
    (registerFile_rising c2WriteZero).regs = c2WriteZero.regs :=
  ⟨register_zero_invariant.1 [],
   register_zero_invariant.2.1 c2Start true c2Next rfl rfl,
   register_zero_invariant.2.2.1 c2WriteZero rfl rfl,
   register_zero_invariant.2.2.2 c2WriteZero rfl⟩

/-- C10: the register file has read-before-write semantics on a rising
edge — with `regWrite` asserted, the values published on the falling edge
are the contents sampled before the write, even when `writeReg` collides
with a read register, while the write itself (to a nonzero slot) does
land. -/
theorem regfile_read_before_write (s : SimState) (hw : s.wires.regWrite = true) :
    (registerFile_falling (registerFile_rising s)).wires.readData1 = s.regs s.wires.readReg1 ∧
    (registerFile_falling (registerFile_rising s)).wires.readData2 = s.regs s.wires.readReg2 ∧
    (s.wires.writeReg ≠ 0 →
      (registerFile_rising s).regs s.wires.writeReg = s.wires.writeData) := by
  refine ⟨rfl, rfl, fun hnz => ?_⟩
  show (if s.wires.regWrite = true ∧ s.wires.writeReg ≠ 0 then
      Function.update s.regs s.wires.writeReg s.wires.writeData else s.regs)
    s.wires.writeReg = s.wires.writeData
  rw [if_pos ⟨hw, hnz⟩, Function.update_same]

/-- Handcrafted collision state: both read ports and the write target are
register 5, which holds 7 while 9 is being written. -/
def c10State : SimState :=
  { wires := { initWires with
      regWrite := true, writeReg := 5, readReg1 := 5, readReg2 := 5, writeData := 9 },
    fsmState := WRITEBACK, instruction := 0x00000013, mem := fun _ => 0,
    ramReadOutput := 0, pcReg := 0, aluOutput := 0,
    regs := Function.update (fun _ => 0) 5 7, regOut1 := 0, regOut2 := 0 }

/-- Witness for C10: on the collision state the published read data is the
old value while the new value is in the register afterwards. -/
theorem regfile_read_before_write_witness :
    (registerFile_falling (registerFile_rising c10State)).wires.readData1 =
      c10State.regs c10State.wires.readReg1 ∧
    (registerFile_falling (registerFile_rising c10State)).wires.readData2 =
      c10State.regs c10State.wires.readReg2 ∧
    (registerFile_rising c10State).regs c10State.wires.writeReg =
      c10State.wires.writeData :=
  ⟨(regfile_read_before_write c10State rfl).1,
   (regfile_read_before_write c10State rfl).2.1,
   (regfile_read_before_write c10State rfl).2.2 (by decide)⟩

/-- Memory-stage state performing an LB (`lb x1, 0(x0)`, funct3 = 000, so
`memUnsigned` is deasserted) of the byte `0xFF` stored at address 0. -/
def c4State : SimState :=
  { wires := { initWires with memAddress := 0, memSize := MemSize.Byte, memUnsigned := false },
    fsmState := MEMORY, instruction := 0x00000083, mem := memStore (fun _ => 0) 0 1 0xFF,
    ramReadOutput := 0, pcReg := 0, aluOutput := 0, regs := fun _ => 0,
    regOut1 := 0, regOut2 := 0 }

/-- The instruction word InstructionMemory works on during a tick from `s`
is exactly `latchedAfterLoad s`. -/
lemma imemWord_risingPre (s : SimState) : imemWord (risingPre s) = latchedAfterLoad s := by
  unfold imemWord latchedAfterLoad
  rcases risingPre_instr_inputs s with ⟨h1, h2, h3⟩
  rw [h1, h2, h3]
  by_cases hd : s.fsmState = DECODE
  · simp [hd]
  · simp [hd]

/-- C1 (amended): `tick()` returns `false` exactly when the instruction word
latched on that rising edge is all zeros; for every other latched
instruction whose opcode has an immediate-table row (a supported RV32I
format) `tick()` returns `true` — an unsupported opcode instead raises the
truth-table error. -/
theorem tick_false_iff_zero_latch (s : SimState) :
    ((∃ s', tick s = Except.ok (false, s')) ↔ latchedAfterLoad s = 0) ∧
    (latchedAfterLoad s ≠ 0 →
      immFormatSupported (bitsSlice 0 7 (latchedAfterLoad s)) = true →
      ∃ s', tick s = Except.ok (true, s')) := by
  constructor
  · constructor
    · rintro ⟨s', h⟩
      rcases hE : instructionMemory_rising (risingPre s) with ⟨e, t⟩ | u
      · cases e
        · rw [← imemWord_risingPre]
          exact (imem_eop_core (risingPre s) t hE).1
        · rw [tick_eq_of_noMatch s t hE] at h
          cases h
      · rw [tick_eq_of_ok s u hE] at h
        simp at h
    · intro h0
      have hz : imemWord (risingPre s) = 0 := by
        rw [imemWord_risingPre]
        exact h0
      exact ⟨_, tick_eq_of_eop s _ (imem_eop_of_zero _ hz)⟩
  · intro hnz hsupp
    have hz : imemWord (risingPre s) ≠ 0 := by
      rw [imemWord_risingPre]
      exact hnz
    have hs : immFormatSupported (bitsSlice 0 7 (imemWord (risingPre s))) = true := by
      rw [imemWord_risingPre]
      exact hsupp
    obtain ⟨u, hu⟩ := imem_ok_of_supported (risingPre s) hz hs
    exact ⟨_, tick_eq_of_ok s u hu⟩

/-- State after one tick of the one-word program `0x00000001` (a nonzero
word whose opcode `0000001` matches no immediate-table row). -/
def c1Mid : SimState :=
  match tick (initSim [0x00000001]) with
  | Except.ok (_, t) => t
  | Except.error _ => initSim [0x00000001]

/-- C1 counterexample: after fetching the word `0x00000001`, the DECODE tick
latches a nonzero instruction yet `tick()` raises the truth-table error
instead of returning `true`, refuting "for every other latched instruction,
tick() returns true". -/
theorem tick_nonzero_latch_not_true_cex :
    tick (initSim [0x00000001]) = Except.ok (true, c1Mid) ∧
    latchedAfterLoad c1Mid ≠ 0 ∧
    tick c1Mid = Except.error SimErr.noMatch :=
  ⟨rfl, by decide, rfl⟩

/-- Witness for C1 (amended) on the empty program: the latched nop is
nonzero with a supported opcode, and the tick returns `true`. -/
theorem tick_false_iff_zero_latch_witness :
    latchedAfterLoad (initSim []) ≠ 0 ∧
    (∃ s', tick (initSim []) = Except.ok (true, s')) :=
  ⟨by decide, (tick_false_iff_zero_latch (initSim [])).2 (by decide) (by decide)⟩

/-- C4 (bug evidence): RAM never consults `memUnsigned`, so a byte load of
`0xFF` with `memUnsigned` deasserted publishes the zero-extension
`0x000000FF`, not the sign-extension `0xFFFFFFFF` the claim (and the
`memUnsigned` wire documentation) require. -/
theorem ram_byte_load_not_sign_extended :
    c4State.wires.memUnsigned = false ∧
    (ram_falling (ram_rising c4State)).wires.memReadData = 0x000000FF ∧
    (ram_falling (ram_rising c4State)).wires.memReadData ≠ 0xFFFFFFFF := by
  refine ⟨rfl, ?_, ?_⟩ <;> decide

/-- ControlFSM outputs in the WRITEBACK state: the jump predicates come from
the jump table keyed on the latched opcode and funct3, and `aluZero` is left
as published by the ALU. -/
lemma controlWires_writeback (s : SimState) (hst : s.fsmState = WRITEBACK) :
    (controlFSM_rising s).wires.branchZero = (jumpTable s.wires.opcode s.wires.funct3).1 ∧
    (controlFSM_rising s).wires.branchNotZero = (jumpTable s.wires.opcode s.wires.funct3).2.1 ∧
    (controlFSM_rising s).wires.jumpControlSrc = (jumpTable s.wires.opcode s.wires.funct3).2.2 ∧
    (controlFSM_rising s).wires.aluZero = s.wires.aluZero := by
  refine ⟨?_, ?_, ?_, ?_⟩ <;>
    simp [controlFSM_rising, controlWires, controlResetOutputs, hst,
      FETCH, DECODE, EXECUTE, MEMORY, WRITEBACK]

/-- C6: in the WRITEBACK state the branch is taken exactly when
`(branchZero ∧ aluZero) ∨ (branchNotZero ∧ ¬aluZero)` with the predicates
drawn from the jump table — `(1,0)` for BEQ/BGE/BGEU, `(0,1)` for
BNE/BLT/BLTU, `(1,1)` for JAL/JALR, `jumpControlSrc = PCImm` except JALR —
and a taken branch routes the jump address (else `pcVal4`) to `pcIn`. -/
theorem writeback_branch_decision (s : SimState) (hst : s.fsmState = WRITEBACK) :
    ((jumpControl_rising (controlFSM_rising s)).wires.pcSrc =
      if ((jumpTable s.wires.opcode s.wires.funct3).1 && s.wires.aluZero) ||
          ((jumpTable s.wires.opcode s.wires.funct3).2.1 && !s.wires.aluZero)
      then PCSrc.JumpControl else PCSrc.PC4) ∧
    (∀ u : SimState, (pcSrcMux_rising u).wires.pcIn =
      if u.wires.pcSrc = PCSrc.JumpControl then u.wires.jumpAddr else u.wires.pcVal4) ∧
    jumpTable 0b1100011 0b000 = (true, false, JumpControlSrc.PCImm) ∧
    jumpTable 0b1100011 0b101 = (true, false, JumpControlSrc.PCImm) ∧
    jumpTable 0b1100011 0b111 = (true, false, JumpControlSrc.PCImm) ∧
    jumpTable 0b1100011 0b001 = (false, true, JumpControlSrc.PCImm) ∧
    jumpTable 0b1100011 0b100 = (false, true, JumpControlSrc.PCImm) ∧
    jumpTable 0b1100011 0b110 = (false, true, JumpControlSrc.PCImm) ∧
    (∀ f3, jumpTable 0b1101111 f3 = (true, true, JumpControlSrc.PCImm)) ∧
    (∀ f3, jumpTable 0b1100111 f3 = (true, true, JumpControlSrc.RS1Imm)) := by
  obtain ⟨hbz, hbnz, hjs, haz⟩ := controlWires_writeback s hst
  refine ⟨?_, ?_, by decide, by decide, by decide, by decide, by decide, by decide,
    fun f3 => rfl, fun f3 => rfl⟩
  · have hx : (jumpControl_rising (controlFSM_rising s)).wires.pcSrc =
        if ((controlFSM_rising s).wires.branchZero && (controlFSM_rising s).wires.aluZero) ||
            ((controlFSM_rising s).wires.branchNotZero && !(controlFSM_rising s).wires.aluZero)
        then PCSrc.JumpControl else PCSrc.PC4 := rfl
    rw [hx, hbz, hbnz, haz]
  · intro u
    cases hu : u.wires.pcSrc
    · simp [pcSrcMux_rising, hu]
    · simp [pcSrcMux_rising, hu]

/-- Writeback-stage state for a BEQ whose EXECUTE comparison produced zero
(equal operands). -/
def c6State : SimState :=
  { wires := { initWires with opcode := 0b1100011, funct3 := 0b000, aluZero := true },
    fsmState := WRITEBACK, instruction := 0x00000063, mem := fun _ => 0,
    ramReadOutput := 0, pcReg := 0, aluOutput := 0, regs := fun _ => 0,
    regOut1 := 0, regOut2 := 0 }

/-- Witness for C6: on the concrete BEQ writeback state the branch is taken
and `pcSrc` selects the jump address. -/
theorem writeback_branch_decision_witness :
    ((jumpControl_rising (controlFSM_rising c6State)).wires.pcSrc =
      if ((jumpTable c6State.wires.opcode c6State.wires.funct3).1 && c6State.wires.aluZero) ||
          ((jumpTable c6State.wires.opcode c6State.wires.funct3).2.1 && !c6State.wires.aluZero)
      then PCSrc.JumpControl else PCSrc.PC4) ∧
    jumpTable 0b1100011 0b000 = (true, false, JumpControlSrc.PCImm) :=
  ⟨(writeback_branch_decision c6State rfl).1,
   (writeback_branch_decision c6State rfl).2.2.1⟩

/-- A slice of a bit vector is bounded by its width. -/
lemma bitsSlice_lt (lo hi n : Nat) : bitsSlice lo hi n < 2 ^ (hi - lo) :=
  Nat.mod_lt _ (Nat.two_pow_pos (hi - lo))

/-- A clear top bit bounds the value below half the range. -/
lemma lt_half_of_testBit_eq_false (v w : Nat) (h : Nat.testBit v w = false)
    (hv : v < 2 ^ (w + 1)) : v < 2 ^ w := by
  rw [Nat.testBit_to_div_mod] at h
  simp only [decide_eq_false_iff_not] at h
  have h2 : v / 2 ^ w < 2 := by
    rw [Nat.div_lt_iff_lt_mul (Nat.two_pow_pos w)]
    rw [pow_succ] at hv
    omega
  interval_cases hq : v / 2 ^ w
  · rwa [Nat.div_eq_zero_iff (Nat.two_pow_pos w)] at hq
  · omega

/-- A set top bit bounds the value above half the range. -/
lemma half_le_of_testBit_eq_true (v w : Nat) (h : Nat.testBit v w = true) : 2 ^ w ≤ v := by
  by_contra hc
  rw [Nat.testBit_lt_two_pow (by omega)] at h
  cases h

/-- Sign-extending a `w`-bit value to 32 bits keeps it in range and
preserves its signed reading (the top bit of the narrow value acts as the
sign). -/
lemma bitsExtendedSigned_spec (w v : Nat) (hw1 : 1 ≤ w) (hw : w ≤ 32) (hv : v < 2 ^ w) :
    bitsToIntSigned 32 (bitsExtendedSigned w v) = bitsToIntSigned w v ∧
    bitsExtendedSigned w v < 2 ^ 32 := by
  have hww : w - 1 + 1 = w := by omega
  have hA : 2 ^ (w - 1) ≤ 2 ^ 31 := Nat.pow_le_pow_right (by norm_num) (by omega)
  have hB : 2 ^ w ≤ 2 ^ 32 := Nat.pow_le_pow_right (by norm_num) hw
  have hBA : 2 ^ w = 2 * 2 ^ (w - 1) := by
    conv_lhs => rw [← hww]
    rw [pow_succ]
    ring
  unfold bitsExtendedSigned bitsToIntSigned
  have h321 : (32 : Nat) - 1 = 31 := rfl
  rw [h321]
  cases hb : Nat.testBit v (w - 1)
  · rw [if_neg (show ¬(false = true) by decide)]
    have hlt : v < 2 ^ (w - 1) := by
      apply lt_half_of_testBit_eq_false v (w - 1) hb
      rwa [hww]
    have h31 : v < 2 ^ 31 := by omega
    rw [if_pos h31, if_pos hlt]
    exact ⟨rfl, by omega⟩
  · rw [if_pos (show true = true from rfl)]
    have hge : 2 ^ (w - 1) ≤ v := half_le_of_testBit_eq_true v (w - 1) hb
    have hlt32 : v + (2 ^ 32 - 2 ^ w) < 2 ^ 32 := by omega
    have hnot31 : ¬ v + (2 ^ 32 - 2 ^ w) < 2 ^ 31 := by
      simp only [not_lt]
      calc (2 : Nat) ^ 31 ≤ 2 ^ 32 - 2 ^ 31 := by norm_num
        _ ≤ v + (2 ^ 32 - 2 ^ w) := by omega
    have hnotv : ¬ v < 2 ^ (w - 1) := by omega
    rw [if_neg hnot31, if_neg hnotv]
    refine ⟨?_, hlt32⟩
    have hB2 : (2 : Nat) ^ w ≤ 4294967296 := le_trans hB (by norm_num)
    push_cast [Nat.cast_sub hB2]
    ring

/-- Sign extension from width 32 is the identity. -/
lemma bitsExtendedSigned_32 (v : Nat) : bitsExtendedSigned 32 v = v := by
  unfold bitsExtendedSigned
  split
  · simp
  · rfl

/-- Every immediate-table row produces a raw immediate whose value fits its
width, with the width between 1 and 32 bits. -/
lemma immediateTable_bounds (op : Nat) (gen : Nat → Nat × Nat)
    (h : immediateTable op = some gen) (i : Nat) :
    1 ≤ (gen i).1 ∧ (gen i).1 ≤ 32 ∧ (gen i).2 < 2 ^ (gen i).1 := by
  have t1 := Bool.toNat_le (Nat.testBit i 31)
  have t2 := Bool.toNat_le (Nat.testBit i 7)
  have t3 := Bool.toNat_le (Nat.testBit i 20)
  unfold immediateTable at h
  split_ifs at h <;> cases h <;> refine ⟨by norm_num, by norm_num, ?_⟩
  · norm_num
  · have a := bitsSlice_lt 20 32 i
    norm_num at a ⊢
    omega
  · have a := bitsSlice_lt 20 32 i
    norm_num at a ⊢
    omega
  · have a := bitsSlice_lt 25 32 i
    have b := bitsSlice_lt 7 12 i
    norm_num at a b ⊢
    omega
  · have a := bitsSlice_lt 25 31 i
    have b := bitsSlice_lt 8 12 i
    norm_num at a b ⊢
    omega
  · have a := bitsSlice_lt 12 32 i
    norm_num at a ⊢
    omega
  · have a := bitsSlice_lt 12 20 i
    have b := bitsSlice_lt 21 31 i
    norm_num at a b ⊢
    omega

/-- A nonzero word whose opcode has an immediate-table row decodes to the
state `imemSetImm`. -/
lemma imem_ok_imm (t : SimState) (gen : Nat → Nat × Nat) (hnz : imemWord t ≠ 0)
    (hm : immediateTable (bitsSlice 0 7 (imemWord t)) = some gen) :
    instructionMemory_rising t = Except.ok (imemSetImm t gen) := by
  unfold instructionMemory_rising
  rw [if_neg hnz, hm]

/-- C5: the immediate published by the decoder.  For the U-type opcodes
(LUI `0110111`, AUIPC `0010111`) it is `instr[31:12]` shifted into bits
[31:12] with zero low bits; for every format the published 32-bit value is
the raw table immediate sign-extended, i.e. its signed reading equals the
raw immediate's signed reading with the raw top bit as sign. -/
theorem immediate_generation (t : SimState) (instr : Nat) (h32 : instr < 2 ^ 32)
    (hw : imemWord t = instr) (hnz : instr ≠ 0) :
    ((bitsSlice 0 7 instr = 0b0110111 ∨ bitsSlice 0 7 instr = 0b0010111) →
      ∃ u, instructionMemory_rising t = Except.ok u ∧
        u.wires.immediate = bitsSlice 12 32 instr * 2 ^ 12) ∧
    (∀ gen, immediateTable (bitsSlice 0 7 instr) = some gen →
      ∃ u, instructionMemory_rising t = Except.ok u ∧
        u.wires.immediate = bitsExtendedSigned (gen instr).1 (gen instr).2 ∧
        bitsToIntSigned 32 u.wires.immediate =
          bitsToIntSigned (gen instr).1 (gen instr).2 ∧
        u.wires.immediate < 2 ^ 32) := by
  constructor
  · intro hop
    have hm : immediateTable (bitsSlice 0 7 instr) =
        some (fun i => (32, bitsSlice 12 32 i * 2 ^ 12)) := by
      rcases hop with h | h <;> rw [h] <;> rfl
    refine ⟨imemSetImm t (fun i => (32, bitsSlice 12 32 i * 2 ^ 12)), ?_, ?_⟩
    · apply imem_ok_imm
      · rw [hw]
        exact hnz
      · rw [hw]
        exact hm
    · show bitsExtendedSigned 32 (bitsSlice 12 32 (imemWord t) * 2 ^ 12) = _
      rw [hw, bitsExtendedSigned_32]
  · intro gen hm
    refine ⟨imemSetImm t gen, ?_, ?_, ?_, ?_⟩
    · apply imem_ok_imm
      · rw [hw]
        exact hnz
      · rw [hw]
        exact hm
    · show bitsExtendedSigned (gen (imemWord t)).1 (gen (imemWord t)).2 = _
      rw [hw]
    · show bitsToIntSigned 32 (bitsExtendedSigned (gen (imemWord t)).1 (gen (imemWord t)).2) = _
      rw [hw]
      obtain ⟨b1, b2, b3⟩ := immediateTable_bounds _ gen hm instr
      exact (bitsExtendedSigned_spec _ _ b1 b2 b3).1
    · show bitsExtendedSigned (gen (imemWord t)).1 (gen (imemWord t)).2 < 2 ^ 32
      rw [hw]
      obtain ⟨b1, b2, b3⟩ := immediateTable_bounds _ gen hm instr
      exact (bitsExtendedSigned_spec _ _ b1 b2 b3).2

/-- Decoder state holding the latched LUI instruction `lui x28, 100000`. -/
def c5State : SimState :=
  { wires := initWires, fsmState := EXECUTE, instruction := 0x186A0E37,
    mem := fun _ => 0, ramReadOutput := 0, pcReg := 0, aluOutput := 0,
    regs := fun _ => 0, regOut1 := 0, regOut2 := 0 }

/-- Witness for C5 on the LUI instruction `0x186A0E37`: the published
immediate is `instr[31:12] << 12 = 0x186A0000`. -/
theorem immediate_generation_witness :
    (∃ u, instructionMemory_rising c5State = Except.ok u ∧
      u.wires.immediate = bitsSlice 12 32 0x186A0E37 * 2 ^ 12) ∧
    bitsSlice 12 32 0x186A0E37 * 2 ^ 12 = 0x186A0000 :=
  ⟨(immediate_generation c5State 0x186A0E37 (by norm_num) rfl (by norm_num)).1
      (Or.inl (by norm_num [bitsSlice])),
   by norm_num [bitsSlice]⟩

/-- ALU semantics as stated by the spec's operation table (§4.5): each row's
mathematical operation applied to the signed or unsigned readings of the
32-bit operands, reduced modulo `2^32`. -/
def specALU (op : Nat) (alt : Bool) (a b : Nat) : Nat :=
  if op = 0 ∧ alt = false then (a + b) % 2 ^ 32
  else if op = 0 ∧ alt = true then intToBits 32 (bitsToIntSigned 32 a - bitsToIntSigned 32 b)
  else if op = 1 then a * 2 ^ (b % 32) % 2 ^ 32
  else if op = 2 then if bitsToIntSigned 32 a < bitsToIntSigned 32 b then 1 else 0
  else if op = 3 then if a < b then 1 else 0
  else if op = 4 then (a ^^^ b) % 2 ^ 32
  else if op = 5 ∧ alt = false then a / 2 ^ (b % 32) % 2 ^ 32
  else if op = 5 ∧ alt = true then
    intToBits 32 (Int.fdiv (bitsToIntSigned 32 a) (2 ^ (b % 32)))
  else if op = 6 then (a ||| b) % 2 ^ 32
  else (a &&& b) % 2 ^ 32

/-- Slicing the low 32 bits is reduction modulo `2^32`. -/
lemma bitsSlice_0_32 (n : Nat) : bitsSlice 0 32 n = n % 2 ^ 32 := by
  unfold bitsSlice
  norm_num

/-- Reducing the 33-bit truncation modulo `2^32` is the 32-bit truncation. -/
lemma intToBits_33_mod (x : Int) : intToBits 33 x % 2 ^ 32 = intToBits 32 x := by
  unfold intToBits
  have h1 : (0 : Int) ≤ x % 2 ^ 33 := Int.emod_nonneg x (by norm_num)
  have h2 : ((x % 2 ^ 33).toNat : Int) = x % 2 ^ 33 := Int.toNat_of_nonneg h1
  have h3 : (x % 2 ^ 33) % 2 ^ 32 = x % 2 ^ 32 := Int.emod_emod_of_dvd x (by norm_num)
  have h4 : (0 : Int) ≤ x % 2 ^ 32 := Int.emod_nonneg x (by norm_num)
  omega

/-- Truncating a cast natural number is reduction modulo `2^32`. -/
lemma intToBits_natCast (n : Nat) : intToBits 32 (n : Int) = n % 2 ^ 32 := by
  unfold intToBits
  omega

/-- Truncation only depends on the residue modulo `2^32`. -/
lemma intToBits_congr (x y : Int) (h : x % 2 ^ 32 = y % 2 ^ 32) :
    intToBits 32 x = intToBits 32 y := by
  unfold intToBits
  rw [h]

/-- The signed reading of a 32-bit pattern is congruent to the pattern
modulo `2^32`. -/
lemma bitsToIntSigned_emod (a : Nat) :
    bitsToIntSigned 32 a % (2 : Int) ^ 32 = (a : Int) % 2 ^ 32 := by
  unfold bitsToIntSigned
  split
  · rfl
  · omega

/-- The 33-bit pattern of a signed 32-bit reading has the original value as
its low 32 bits. -/
lemma intToBits33_signed (a : Nat) (ha : a < 2 ^ 32) :
    intToBits 33 (bitsToIntSigned 32 a) % 2 ^ 32 = a := by
  unfold intToBits bitsToIntSigned
  split <;> omega

/-- Truncating the signed reading of a 33-bit pattern to 32 bits drops the
top bit. -/
lemma intToBits_of_signed33 (P : Nat) :
    intToBits 32 (bitsToIntSigned 33 P) = P % 2 ^ 32 := by
  unfold intToBits bitsToIntSigned
  split <;> omega

/-- The truncation is bounded by its width. -/
lemma intToBits_lt (w : Nat) (x : Int) : intToBits w x < 2 ^ w := by
  unfold intToBits
  have h1 : (0 : Int) ≤ x % 2 ^ w := Int.emod_nonneg x (by positivity)
  have h2 : x % 2 ^ w < 2 ^ w := Int.emod_lt_of_pos x (by positivity)
  have h3 : ((2 : Int) ^ w) = ((2 ^ w : Nat) : Int) := by push_cast; ring
  omega

/-- The shift amount of a cast natural operand is its residue modulo 32. -/
lemma shamt_natCast (b : Nat) : shamt (b : Int) = b % 32 := by
  unfold shamt
  omega

/-- The shift amount of a signed operand reading is still the unsigned
residue modulo 32 (two's-complement masking). -/
lemma shamt_signed (b : Nat) : shamt (bitsToIntSigned 32 b) = b % 32 := by
  unfold shamt bitsToIntSigned
  split <;> omega

/-- Reduction modulo a power of two distributes over XOR. -/
lemma xor_mod_two_pow (x y k : Nat) :
    (x ^^^ y) % 2 ^ k = (x % 2 ^ k) ^^^ (y % 2 ^ k) := by
  apply Nat.eq_of_testBit_eq
  intro i
  simp only [Nat.testBit_mod_two_pow, Nat.testBit_xor]
  by_cases h : i < k <;> simp [h]

/-- Reduction modulo a power of two distributes over OR. -/
lemma lor_mod_two_pow (x y k : Nat) :
    (x ||| y) % 2 ^ k = (x % 2 ^ k) ||| (y % 2 ^ k) := by
  apply Nat.eq_of_testBit_eq
  intro i
  simp only [Nat.testBit_mod_two_pow, Nat.testBit_lor]
  by_cases h : i < k <;> simp [h]

/-- Reduction modulo a power of two distributes over AND. -/
lemma land_mod_two_pow (x y k : Nat) :
    (x &&& y) % 2 ^ k = (x % 2 ^ k) &&& (y % 2 ^ k) := by
  apply Nat.eq_of_testBit_eq
  intro i
  simp only [Nat.testBit_mod_two_pow, Nat.testBit_land]
  by_cases h : i < k <;> simp [h]

/-- Add row: the truncated signed sum is the wrapped unsigned sum. -/
lemma aluRow_add (a b : Nat) (ha : a < 2 ^ 32) (hb : b < 2 ^ 32) :
    intToBits 32 (bitsToIntSigned 32 a + bitsToIntSigned 32 b) = (a + b) % 2 ^ 32 := by
  have h : (bitsToIntSigned 32 a + bitsToIntSigned 32 b) % 2 ^ 32 =
      ((a + b : Nat) : Int) % 2 ^ 32 := by
    rw [Int.add_emod, bitsToIntSigned_emod, bitsToIntSigned_emod, ← Int.add_emod]
    push_cast
    ring_nf
  rw [intToBits_congr _ _ h, intToBits_natCast]

/-- Shift-left row: the truncated signed shift is the wrapped unsigned
shift, with the shift amount the low five bits of the second operand. -/
lemma aluRow_sll (a b : Nat) (ha : a < 2 ^ 32) (hb : b < 2 ^ 32) :
    intToBits 32 (bitsToIntSigned 32 a * 2 ^ shamt (bitsToIntSigned 32 b)) =
      a * 2 ^ (b % 32) % 2 ^ 32 := by
  rw [shamt_signed]
  have h : (bitsToIntSigned 32 a * 2 ^ (b % 32)) % 2 ^ 32 =
      ((a * 2 ^ (b % 32) : Nat) : Int) % 2 ^ 32 := by
    rw [Int.mul_emod, bitsToIntSigned_emod, ← Int.mul_emod]
    push_cast
    ring_nf
  rw [intToBits_congr _ _ h, intToBits_natCast]

/-- Set-less-than row: the truncated comparison bit is the comparison bit. -/
lemma aluRow_slt (a b : Nat) :
    intToBits 32 (if bitsToIntSigned 32 a < bitsToIntSigned 32 b then 1 else 0) =
      if bitsToIntSigned 32 a < bitsToIntSigned 32 b then 1 else 0 := by
  split
  · rfl
  · rfl

/-- Unsigned set-less-than row: the integer comparison of the casts is the
natural-number comparison. -/
lemma aluRow_sltu (a b : Nat) :
    intToBits 32 (if (a : Int) < (b : Int) then 1 else 0) = if a < b then 1 else 0 := by
  by_cases h : a < b
  · rw [if_pos (by exact_mod_cast h), if_pos h]
    rfl
  · rw [if_neg (by exact_mod_cast h), if_neg h]
    rfl

/-- XOR row: 33-bit two's-complement XOR truncates to the wrapped bitwise
XOR of the operands. -/
lemma aluRow_xor (a b : Nat) (ha : a < 2 ^ 32) (hb : b < 2 ^ 32) :
    intToBits 32 (intXor33 (bitsToIntSigned 32 a) (bitsToIntSigned 32 b)) =
      (a ^^^ b) % 2 ^ 32 := by
  unfold intXor33
  rw [intToBits_of_signed33, xor_mod_two_pow, intToBits33_signed a ha,
    intToBits33_signed b hb, xor_mod_two_pow, Nat.mod_eq_of_lt ha, Nat.mod_eq_of_lt hb]

/-- OR row (see `aluRow_xor`). -/
lemma aluRow_or (a b : Nat) (ha : a < 2 ^ 32) (hb : b < 2 ^ 32) :
    intToBits 32 (intOr33 (bitsToIntSigned 32 a) (bitsToIntSigned 32 b)) =
      (a ||| b) % 2 ^ 32 := by
  unfold intOr33
  rw [intToBits_of_signed33, lor_mod_two_pow, intToBits33_signed a ha,
    intToBits33_signed b hb, lor_mod_two_pow, Nat.mod_eq_of_lt ha, Nat.mod_eq_of_lt hb]

/-- AND row (see `aluRow_xor`). -/
lemma aluRow_and (a b : Nat) (ha : a < 2 ^ 32) (hb : b < 2 ^ 32) :
    intToBits 32 (intAnd33 (bitsToIntSigned 32 a) (bitsToIntSigned 32 b)) =
      (a &&& b) % 2 ^ 32 := by
  unfold intAnd33
  rw [intToBits_of_signed33, land_mod_two_pow, intToBits33_signed a ha,
    intToBits33_signed b hb, land_mod_two_pow, Nat.mod_eq_of_lt ha, Nat.mod_eq_of_lt hb]

/-- Logical shift-right row: the floor division of the unsigned casts is the
natural-number division. -/
lemma aluRow_srl (a b : Nat) :
    intToBits 32 (Int.fdiv (a : Int) (2 ^ shamt ((b : Int)))) =
      a / 2 ^ (b % 32) % 2 ^ 32 := by
  rw [shamt_natCast]
  have h : ((2 : Int) ^ (b % 32)) = (((2 ^ (b % 32) : Nat)) : Int) := by push_cast; ring
  rw [h, Int.fdiv_eq_tdiv (by positivity) (by positivity), ← Int.ofNat_tdiv, intToBits_natCast]

/-- Arithmetic shift-right row: the shift amount of the signed operand is
its low five bits. -/
lemma aluRow_sra (a b : Nat) :
    intToBits 32 (Int.fdiv (bitsToIntSigned 32 a) (2 ^ shamt (bitsToIntSigned 32 b))) =
      intToBits 32 (Int.fdiv (bitsToIntSigned 32 a) (2 ^ (b % 32))) := by
  rw [shamt_signed]

/-- The ALU pipeline — decode operands per the row's signedness, apply the
row operation, truncate to 33 bits, keep the low 32 — computes the spec's
table operation reduced modulo `2^32`, for every row. -/
lemma aluPipeline_eq_spec (op : Nat) (alt : Bool) (a b : Nat) (hop8 : op < 8)
    (ha : a < 2 ^ 32) (hb : b < 2 ^ 32) :
    bitsSlice 0 32 (intToBits 33 (aluOpFun op alt
      (bitsToInt 32 a (aluSigned op alt)) (bitsToInt 32 b (aluSigned op alt)))) =
    specALU op alt a b := by
  rw [bitsSlice_0_32, intToBits_33_mod]
  interval_cases op <;> cases alt
  · exact aluRow_add a b ha hb
  · rfl
  · exact aluRow_sll a b ha hb
  · exact aluRow_sll a b ha hb
  · exact aluRow_slt a b
  · exact aluRow_slt a b
  · exact aluRow_sltu a b
  · exact aluRow_sltu a b
  · exact aluRow_xor a b ha hb
  · exact aluRow_xor a b ha hb
  · exact aluRow_srl a b
  · exact aluRow_sra a b
  · exact aluRow_or a b ha hb
  · exact aluRow_or a b ha hb
  · exact aluRow_and a b ha hb
  · exact aluRow_and a b ha hb

/-- C3: with `aluCalc` asserted, the published `aluOut` is the ALU-table
operation of the row `(aluOp, aluAlt)` applied to the operands (read signed
or unsigned per the row) reduced modulo `2^32`, and the published `aluZero`
bit is set exactly when `aluOut` is zero. -/
theorem alu_table_correct (s : SimState) (op : Nat) (alt : Bool) (a b : Nat)
    (hcalc : s.wires.aluCalc = true) (hop : s.wires.aluOp = op) (hal : s.wires.aluAlt = alt)
    (h1 : s.wires.aluIn1 = a) (h2 : s.wires.aluIn2 = b)
    (hop8 : op < 8) (ha : a < 2 ^ 32) (hb : b < 2 ^ 32) :
    (alu_falling (alu_rising s)).wires.aluOut = specALU op alt a b ∧
    ((alu_falling (alu_rising s)).wires.aluZero = true ↔
      (alu_falling (alu_rising s)).wires.aluOut = 0) := by
  have hout : (alu_rising s).aluOutput =
      bitsSlice 0 32 (intToBits 33 (aluOpFun op alt
        (bitsToInt 32 a (aluSigned op alt)) (bitsToInt 32 b (aluSigned op alt)))) := by
    unfold alu_rising
    rw [hcalc, hop, hal, h1, h2]
    rfl
  have hOutEq : (alu_falling (alu_rising s)).wires.aluOut = (alu_rising s).aluOutput := rfl
  have hZeroEq : (alu_falling (alu_rising s)).wires.aluZero =
      decide ((alu_rising s).aluOutput = 0) := rfl
  constructor
  · rw [hOutEq, hout]
    exact aluPipeline_eq_spec op alt a b hop8 ha hb
  · rw [hOutEq, hZeroEq]
    exact decide_eq_true_iff

/-- Execute-stage state computing `ADD 0xFFFFFFFF + 5`, which wraps. -/
def c3State : SimState :=
  { wires := { initWires with
      aluCalc := true, aluOp := 0, aluAlt := false, aluIn1 := 0xFFFFFFFF, aluIn2 := 5 },
    fsmState := EXECUTE, instruction := 0x00000013, mem := fun _ => 0,
    ramReadOutput := 0, pcReg := 0, aluOutput := 0, regs := fun _ => 0,
    regOut1 := 0, regOut2 := 0 }

/-- Witness for C3: the wrapped sum `0xFFFFFFFF + 5 = 4` is published with a
clear zero flag. -/
theorem alu_table_correct_witness :
    (alu_falling (alu_rising c3State)).wires.aluOut = specALU 0 false 0xFFFFFFFF 5 ∧
    ((alu_falling (alu_rising c3State)).wires.aluZero = true ↔
      (alu_falling (alu_rising c3State)).wires.aluOut = 0) :=
  alu_table_correct c3State 0 false 0xFFFFFFFF 5 rfl rfl rfl rfl rfl
    (by norm_num) (by norm_num) (by norm_num)

end RiscvSim
